import Mathlib

/-!
Verification of the CCAIndex scoring and sentiment-aggregation pipeline
(`src/sentiment_analysis.py`) against its specification.

Modelling conventions:
* Python dicts of article records become the `Article` structure whose fields
  are `Option String` (`none` = key absent); Python's `d.get(k, default)`
  becomes `Option.getD`.
* Real-valued arithmetic is modelled with `ℚ`; Python's `round` (banker's
  rounding, round-half-to-even) becomes `roundHalfEven`.
* The external VADER sentiment analyzer is a parameter `sc : String → ℚ`
  (the compound polarity of a text).
* Python exceptions are modelled with `Option` (KeyError in dict lookups)
  and `Except String` (raised exceptions); a `try/except` block around a
  network call becomes a function consuming an `Except` value, with the
  error case mapped to the behaviour of the `except` branch.
-/

namespace CCAIndex

/-- The fixed five month labels, `["May", "Jun", "Jul", "Aug", "Sep"]`
(line 114 / 126 of `sentiment_analysis.py`). -/
def monthLabels : List String := ["May", "Jun", "Jul", "Aug", "Sep"]

/-- An article record: a Python dict whose relevant keys are
`title`, `description`, `url`, `month`, `source`; `none` models an
absent key. -/
structure Article where
  title : Option String
  description : Option String
  url : Option String
  month : Option String
  source : Option String
  deriving Repr, DecidableEq

/-- `article.get("title", "") + " " + article.get("description", "")`
(lines 119 and 132). -/
def articleContent (a : Article) : String :=
  a.title.getD "" ++ " " ++ a.description.getD ""

/-- The dict returned by `analyze_sentiment`. -/
structure SentimentProfile where
  score : ℚ
  trend : List ℚ
  months : List String
  deriving Repr, DecidableEq

/-- `sum(scores) / len(scores) if scores else 0` (lines 123 and 140). -/
def listMean (l : List ℚ) : ℚ :=
  if l = [] then 0 else l.sum / l.length

/-- One iteration of the bucket-filling loop (lines 129-134): if the
article's `month` key is one of the fixed labels, append the article's
compound sentiment to that month's bucket. -/
def bucketStep (sc : String → ℚ) (f : String → List ℚ) (a : Article) :
    String → List ℚ :=
  match a.month with
  | some m =>
      if m ∈ monthLabels then
        Function.update f m (f m ++ [sc (articleContent a)])
      else f
  | none => f

/-- The `monthly_sentiments` dict after the filling loop, as a function
from month label to that month's list of compound scores (months outside
the label set have no bucket; the function returns `[]` there, and they
are never read). -/
def monthly_sentiments (sc : String → ℚ) (articles : List Article) :
    String → List ℚ :=
  articles.foldl (bucketStep sc) (fun _ => [])

/-- `analyze_sentiment` (lines 111-151).  The final `while len(trend) < 5`
loop of the source is a no-op (the trend already has one entry per label)
and is omitted. -/
def analyze_sentiment (sc : String → ℚ) (articles : List Article) :
    SentimentProfile :=
  if articles = [] then
    { score := 0, trend := [0, 0, 0, 0, 0], months := monthLabels }
  else
    let sentiments := articles.map (fun a => sc (articleContent a))
    let buckets := monthly_sentiments sc articles
    { score := listMean sentiments
      trend := monthLabels.map (fun m => listMean (buckets m))
      months := monthLabels }

/-- Python's `round` on an exact value: round half to even. -/
def roundHalfEven (x : ℚ) : ℤ :=
  if x - ⌊x⌋ < 1 / 2 then ⌊x⌋
  else if 1 / 2 < x - ⌊x⌋ then ⌊x⌋ + 1
  else if ⌊x⌋ % 2 = 0 then ⌊x⌋ else ⌊x⌋ + 1

/-- The five ESG metric keys of the companies configuration (lines 23-29). -/
def requiredKeys : List String :=
  ["emissions_reduction", "renewable_energy", "water_conservation",
   "waste_management", "supply_chain"]

/-- The repository's `weights` dict (lines 45-52), as a partial map:
`none` models a key that raises `KeyError` on lookup. -/
def repoWeights : String → Option ℚ := fun k =>
  if k = "emissions_reduction" then some (25 / 100)
  else if k = "renewable_energy" then some (25 / 100)
  else if k = "water_conservation" then some (15 / 100)
  else if k = "waste_management" then some (15 / 100)
  else if k = "supply_chain" then some (20 / 100)
  else if k = "sentiment_weight" then some (25 / 100)
  else none

/-- A company configuration record (lines 19-42): `metrics` is the dict as
an association list in insertion order. -/
structure Company where
  name : String
  search_terms : List String
  metrics : List (String × ℚ)
  deriving Repr, DecidableEq

/-- A company record after `calculate_scores` has enriched it in place. -/
structure ScoredCompany where
  name : String
  search_terms : List String
  metrics : List (String × ℚ)
  sentiment : SentimentProfile
  esg_score : ℤ
  sentiment_score : ℤ
  overall_score : ℤ
  deriving Repr, DecidableEq

/-- `sum(value * weights[metric] for metric, value in company["metrics"].items())`
(line 164): iterates over the company's metric entries, looking each key up
in `weights`; `none` models the `KeyError` raised when a metric key is
missing from `weights`. -/
def esg_raw (weights : String → Option ℚ) : List (String × ℚ) → Option ℚ
  | [] => some 0
  | (k, v) :: rest =>
      (weights k).bind fun w => (esg_raw weights rest).map fun s => v * w + s

/-- `round(esg_score * 100)` (line 165). -/
def esg_score_int (weights : String → Option ℚ) (metrics : List (String × ℚ)) :
    Option ℤ :=
  (esg_raw weights metrics).map fun r => roundHalfEven (r * 100)

/-- `round((company["sentiment"]["score"] + 1) / 2 * 100)` (line 168). -/
def sentiment_score_int (s : ℚ) : ℤ :=
  roundHalfEven ((s + 1) / 2 * 100)

/-- `round(company["esg_score"] * esg_weight + sentiment_score * sentiment_weight)`
with `esg_weight = 1 - sentiment_weight` (lines 172-174). -/
def overall_score_int (esg sentInt : ℤ) (w : ℚ) : ℤ :=
  roundHalfEven ((esg : ℚ) * (1 - w) + (sentInt : ℚ) * w)

/-- The per-company body of the `calculate_scores` loop (lines 160-174),
given the articles fetched for the company.  `none` models a `KeyError`
from a weights lookup (either a metric key at line 164 or
`weights["sentiment_weight"]` at line 172). -/
def score_company (sc : String → ℚ) (weights : String → Option ℚ)
    (articles : List Article) (c : Company) : Option ScoredCompany :=
  let prof := analyze_sentiment sc articles
  (esg_score_int weights c.metrics).bind fun esgInt =>
  (weights "sentiment_weight").map fun sw =>
    let sInt := sentiment_score_int prof.score
    { name := c.name, search_terms := c.search_terms, metrics := c.metrics
      sentiment := prof, esg_score := esgInt, sentiment_score := sInt
      overall_score := overall_score_int esgInt sInt sw }

/-- Insert into an already-sorted (descending by `key`) list, placing `x`
before the first element whose key is `≤ key x`.  This is the behaviour of
a stable descending sort among equal keys. -/
def insort (key : α → ℤ) (x : α) : List α → List α
  | [] => [x]
  | y :: ys => if key y ≤ key x then x :: y :: ys else y :: insort key x ys

/-- Stable insertion sort, descending by `key`: models
`results.sort(key=lambda x: x["overall_score"], reverse=True)` (line 179),
which in Python is a stable descending sort. -/
def sortDesc (key : α → ℤ) : List α → List α
  | [] => []
  | x :: xs => insort key x (sortDesc key xs)

/-- The `for company in companies` loop of `calculate_scores`
(lines 156-176): fetch news, score, append.  `fetch` abstracts
`get_company_news` (its exceptions, e.g. the missing-API-key `ValueError`,
propagate); a `KeyError` from a weights lookup also propagates. -/
def score_pipeline (sc : String → ℚ) (weights : String → Option ℚ)
    (fetch : String → List String → Except String (List Article)) :
    List Company → Except String (List ScoredCompany)
  | [] => Except.ok []
  | c :: rest =>
      (fetch c.name c.search_terms).bind fun articles =>
        match score_company sc weights articles c with
        | some s => (score_pipeline sc weights fetch rest).map fun l => s :: l
        | none => Except.error "KeyError"

/-- `calculate_scores` (lines 153-180): score every company, then sort
descending by overall score. -/
def calculate_scores (sc : String → ℚ) (weights : String → Option ℚ)
    (fetch : String → List String → Except String (List Article))
    (companies : List Company) : Except String (List ScoredCompany) :=
  (score_pipeline sc weights fetch companies).map
    (sortDesc fun s => s.overall_score)

/-- A parsed NewsAPI response body: the `status` and `articles` keys
(lines 82-83); `none` models an absent key. -/
structure NewsApiResponse where
  status : Option String
  articles : Option (List Article)
  deriving Repr, DecidableEq

/-- A parsed GNews response body: the `articles` key (line 96). -/
structure GNewsResponse where
  articles : Option (List Article)
  deriving Repr, DecidableEq

/-- Python truthiness of an optional environment string: `None` and the
empty string are falsy (line 62). -/
def truthy (o : Option String) : Bool :=
  o.getD "" ≠ ""

/-- The NewsAPI `try` block for one (term, window) pair (lines 77-88):
an `Except.error` input models any exception raised by the request or
JSON parse, handled by the `except` branch, which contributes no
articles.  On success, if `status == "ok"`, the first five raw articles
are kept with their `month` and `source` keys set; otherwise nothing is
appended. -/
def processNewsApi (monthName : String) (r : Except String NewsApiResponse) :
    List Article :=
  match r with
  | Except.error _ => []
  | Except.ok data =>
      if data.status = some "ok" then
        ((data.articles.getD []).take 5).map fun a =>
          { a with month := some monthName, source := some "NewsAPI" }
      else []

/-- The GNews `try` block for one (term, window) pair (lines 90-107): on
success, every raw article is rebuilt as a standardized record with
`title`, `description` and `url` defaulted to `""`; the truthiness guard
`if gnews_data.get("articles"):` only skips an empty iteration, so an
absent key contributes no articles. -/
def processGNews (monthName : String) (r : Except String GNewsResponse) :
    List Article :=
  match r with
  | Except.error _ => []
  | Except.ok data =>
      (data.articles.getD []).map fun a =>
        { title := some (a.title.getD ""), description := some (a.description.getD "")
          url := some (a.url.getD ""), month := some monthName, source := some "GNews" }

/-- `get_company_news` (lines 54-109).  `monthName i` abstracts
`(datetime.now() - timedelta(days=i*30)).strftime("%b")`; `newsapiCall`
and `gnewsCall` abstract the two network requests for a (term, window
index) pair, an `Except.error` modelling a raised exception.  The missing
API-key check raises `ValueError` before any call. -/
def get_company_news (newsapiKey gnewsKey : Option String)
    (monthName : Nat → String)
    (newsapiCall : String → Nat → Except String NewsApiResponse)
    (gnewsCall : String → Nat → Except String GNewsResponse)
    (company_name : String) (search_terms : List String) (months : Nat) :
    Except String (List Article) :=
  if truthy newsapiKey ∧ truthy gnewsKey then
    Except.ok <| search_terms.flatMap fun term =>
      (List.range months).flatMap fun i =>
        processNewsApi (monthName i) (newsapiCall term i)
          ++ processGNews (monthName i) (gnewsCall term i)
  else
    Except.error "Missing API keys. Check your .env file."

/-- Treat a [0,1]-valued weight assignment on the five ESG keys as a
weights dict containing exactly those keys. -/
def esgWeights (wv : String → ℚ) : String → Option ℚ := fun k =>
  if k ∈ requiredKeys then some (wv k) else none

/-- Normalize an article record by defaulting a missing `title` or
`description` to the empty string (the effect of the `get` defaults at
lines 119 and 132). -/
def fillDefaults (a : Article) : Article :=
  { a with title := some (a.title.getD ""), description := some (a.description.getD "") }

/-- Whether an article carries a `month` key equal to one of the five
fixed labels (the membership test at line 131). -/
def goodMonth (a : Article) : Bool :=
  match a.month with
  | some m => decide (m ∈ monthLabels)
  | none => false

/-- A metrics dict covering only four of the five required ESG keys
(`supply_chain` missing). -/
def metricsMissingSupplyChain : List (String × ℚ) :=
  [("emissions_reduction", 4 / 5), ("renewable_energy", 4 / 5),
   ("water_conservation", 4 / 5), ("waste_management", 4 / 5)]

/-- A raw NewsAPI article carrying none of the common fields. -/
def rawBareArticle : Article := ⟨none, none, none, none, none⟩

/-- A successful NewsAPI response whose single article has no `title` or
`description` key. -/
def newsapiRespBare : NewsApiResponse := ⟨some "ok", some [rawBareArticle]⟩

/-! ### A concrete configuration: equal ESG weights, sentiment weight 1/4,
metrics all 0.8, and a news fetch returning zero articles. -/

/-- Equal-split ESG weights (1/5 each) with `sentiment_weight = 1/4`. -/
def equalWeights : String → Option ℚ := fun k =>
  if k ∈ requiredKeys then some (1 / 5)
  else if k = "sentiment_weight" then some (1 / 4) else none

/-- Metrics dict with all five values 0.8. -/
def demoMetrics : List (String × ℚ) := requiredKeys.map fun k => (k, 4 / 5)

/-- A news fetch that succeeds with zero articles for every company. -/
def demoFetchEmpty : String → List String → Except String (List Article) :=
  fun _ _ => Except.ok []

/-- The scored record produced for a metrics-all-0.8 company with equal
weights, sentiment weight 1/4 and no articles. -/
def demoScored (name : String) (terms : List String) : ScoredCompany :=
  ⟨name, terms, demoMetrics, ⟨0, [0, 0, 0, 0, 0], monthLabels⟩, 80, 50, 72⟩


/-! ### Helper lemmas about `roundHalfEven` -/

theorem roundHalfEven_intCast (n : ℤ) : roundHalfEven (n : ℚ) = n := by
  unfold roundHalfEven
  rw [Int.floor_intCast]
  norm_num

theorem roundHalfEven_int_add_half (n : ℤ) :
    roundHalfEven ((n : ℚ) + 1 / 2) = if n % 2 = 0 then n else n + 1 := by
  have hf : ⌊(n : ℚ) + 1 / 2⌋ = n := by
    rw [Int.floor_eq_iff]
    constructor
    · linarith
    · linarith
  unfold roundHalfEven
  rw [hf]
  norm_num

theorem roundHalfEven_nonneg {x : ℚ} (h : 0 ≤ x) : 0 ≤ roundHalfEven x := by
  have hf : (0 : ℤ) ≤ ⌊x⌋ := Int.floor_nonneg.mpr h
  unfold roundHalfEven
  split
  · exact hf
  · split
    · omega
    · split <;> omega

theorem roundHalfEven_le {x : ℚ} {n : ℤ} (h : x ≤ n) : roundHalfEven x ≤ n := by
  have hf : ⌊x⌋ ≤ n := by
    calc ⌊x⌋ ≤ ⌊(n : ℚ)⌋ := Int.floor_le_floor h
    _ = n := Int.floor_intCast n
  have hsucc : ¬ x - ⌊x⌋ < 1 / 2 → ⌊x⌋ + 1 ≤ n := by
    intro hr
    push_neg at hr
    have hax : (⌊x⌋ : ℚ) + 1 / 2 ≤ x := by linarith
    have : (⌊x⌋ : ℚ) < (n : ℚ) := by linarith
    have : ⌊x⌋ < n := by exact_mod_cast this
    omega
  unfold roundHalfEven
  split
  · exact hf
  · split
    · exact hsucc (by assumption)
    · split
      · exact hf
      · exact hsucc (by assumption)

/-! ### Helper lemmas about the ESG blend -/

theorem esg_raw_keys (w : String → Option ℚ) (wv f : String → ℚ) :
    ∀ keys : List String, (∀ k ∈ keys, w k = some (wv k)) →
      esg_raw w (keys.map fun k => (k, f k)) =
        some ((keys.map fun k => f k * wv k).sum)
  | [], _ => rfl
  | k :: rest, h => by
    have hk : w k = some (wv k) := h k (List.mem_cons_self k rest)
    have ih := esg_raw_keys w wv f rest fun k hk => h k (List.mem_cons_of_mem _ hk)
    simp [esg_raw, hk, ih]

theorem esg_raw_none_iff (w : String → Option ℚ) :
    ∀ metrics : List (String × ℚ),
      (esg_raw w metrics = none ↔ ∃ p ∈ metrics, w p.1 = none)
  | [] => by simp [esg_raw]
  | (k, v) :: rest => by
    cases hw : w k with
    | none => simp [esg_raw, hw]
    | some x =>
      have ih := esg_raw_none_iff w rest
      cases hr : esg_raw w rest with
      | none =>
        simp only [esg_raw, hw, hr, Option.bind_some, Option.map_none]
        simp only [hr, true_iff] at ih
        simp [ih]
      | some s =>
        simp only [esg_raw, hw, hr, Option.bind_some, Option.map_some]
        constructor
        · intro h
          exact (Option.some_ne_none _ h).elim
        · rintro ⟨p, hp, hnone⟩
          rcases List.mem_cons.mp hp with heq | hmem
          · rw [heq] at hnone
            rw [hw] at hnone
            exact (Option.some_ne_none _ hnone).elim
          · have hrest := ih.mpr ⟨p, hmem, hnone⟩
            rw [hr] at hrest
            exact (Option.some_ne_none _ hrest).elim

/-! ### Helper lemmas about the descending stable sort -/

theorem insort_perm (key : α → ℤ) (x : α) :
    ∀ l : List α, (insort key x l).Perm (x :: l)
  | [] => List.Perm.refl _
  | y :: ys => by
    unfold insort
    split
    · exact List.Perm.refl _
    · exact ((insort_perm key x ys).cons y).trans (List.Perm.swap x y ys)

theorem sortDesc_perm (key : α → ℤ) :
    ∀ l : List α, (sortDesc key l).Perm l
  | [] => List.Perm.refl _
  | x :: xs =>
    ((insort_perm key x (sortDesc key xs)).trans
      (List.Perm.cons x (sortDesc_perm key xs)))

theorem mem_sortDesc {key : α → ℤ} {l : List α} {a : α} :
    a ∈ sortDesc key l ↔ a ∈ l :=
  (sortDesc_perm key l).mem_iff

theorem insort_sorted {key : α → ℤ} {x : α} :
    ∀ {l : List α}, l.Pairwise (fun a b => key b ≤ key a) →
      (insort key x l).Pairwise (fun a b => key b ≤ key a)
  | [], _ => List.pairwise_singleton _ _
  | y :: ys, h => by
    unfold insort
    split
    · refine List.Pairwise.cons ?_ h
      intro z hz
      rcases List.mem_cons.mp hz with rfl | hmem
      · assumption
      · exact le_trans ((List.pairwise_cons.mp h).1 z hmem) (by assumption)
    · rename_i hxy
      push_neg at hxy
      refine List.Pairwise.cons ?_ (insort_sorted (List.pairwise_cons.mp h).2)
      intro z hz
      rcases List.mem_cons.mp ((insort_perm key x ys).mem_iff.mp hz) with rfl | hmem
      · exact le_of_lt hxy
      · exact (List.pairwise_cons.mp h).1 z hmem

theorem sortDesc_sorted (key : α → ℤ) :
    ∀ l : List α, (sortDesc key l).Pairwise (fun a b => key b ≤ key a)
  | [] => List.Pairwise.nil
  | x :: xs => insort_sorted (sortDesc_sorted key xs)

theorem insort_stable {key : α → ℤ} {R : α → α → Prop} {x : α} :
    ∀ {l : List α}, l.Pairwise (fun a b => key b < key a ∨ R a b) →
      (∀ y ∈ l, R x y) →
      (insort key x l).Pairwise (fun a b => key b < key a ∨ R a b)
  | [], _, _ => List.pairwise_singleton _ _
  | y :: ys, h, hx => by
    unfold insort
    split
    · refine List.Pairwise.cons ?_ h
      intro z hz
      exact Or.inr (hx z hz)
    · rename_i hxy
      push_neg at hxy
      refine List.Pairwise.cons ?_
        (insort_stable (List.pairwise_cons.mp h).2
          fun z hz => hx z (List.mem_cons_of_mem _ hz))
      intro z hz
      rcases List.mem_cons.mp ((insort_perm key x ys).mem_iff.mp hz) with rfl | hmem
      · exact Or.inl hxy
      · exact (List.pairwise_cons.mp h).1 z hmem

theorem sortDesc_stable {R : α → α → Prop} (key : α → ℤ) :
    ∀ {l : List α}, l.Pairwise R →
      (sortDesc key l).Pairwise (fun a b => key b < key a ∨ R a b)
  | [], _ => List.Pairwise.nil
  | x :: xs, h => by
    refine insort_stable (sortDesc_stable key (List.pairwise_cons.mp h).2) ?_
    intro y hy
    exact (List.pairwise_cons.mp h).1 y (mem_sortDesc.mp hy)

theorem sortDesc_ties {key : α → ℤ} {R : α → α → Prop} {l : List α}
    (h : l.Pairwise R) :
    (sortDesc key l).Pairwise (fun a b => key a = key b → R a b) := by
  have h1 := sortDesc_sorted key l
  have h2 := sortDesc_stable key h
  refine (h1.and h2).imp ?_
  rintro a b ⟨hle, hlt | hr⟩
  · intro heq
    omega
  · intro _
    exact hr

/-! ### Helper lemmas about the scoring pipeline -/

theorem score_company_eq {sc : String → ℚ} {weights : String → Option ℚ}
    {articles : List Article} {c : Company} {s : ScoredCompany}
    (h : score_company sc weights articles c = some s) :
    ∃ esgInt sw, esg_score_int weights c.metrics = some esgInt ∧
      weights "sentiment_weight" = some sw ∧
      s = { name := c.name, search_terms := c.search_terms, metrics := c.metrics
            sentiment := analyze_sentiment sc articles, esg_score := esgInt
            sentiment_score := sentiment_score_int (analyze_sentiment sc articles).score
            overall_score := overall_score_int esgInt
              (sentiment_score_int (analyze_sentiment sc articles).score) sw } := by
  cases he : esg_score_int weights c.metrics with
  | none => simp [score_company, he] at h
  | some esgInt =>
    cases hw : weights "sentiment_weight" with
    | none => simp [score_company, he, hw] at h
    | some sw =>
      simp only [score_company, he, hw, Option.some_bind, Option.map_some',
        Option.some.injEq] at h
      exact ⟨esgInt, sw, rfl, rfl, h.symm⟩

theorem score_pipeline_cons_ok {sc : String → ℚ} {weights : String → Option ℚ}
    {fetch : String → List String → Except String (List Article)}
    {c : Company} {rest : List Company} {out : List ScoredCompany}
    (h : score_pipeline sc weights fetch (c :: rest) = Except.ok out) :
    ∃ articles s l, fetch c.name c.search_terms = Except.ok articles ∧
      score_company sc weights articles c = some s ∧
      score_pipeline sc weights fetch rest = Except.ok l ∧
      out = s :: l := by
  cases hf : fetch c.name c.search_terms with
  | error e => simp [score_pipeline, hf, Except.bind] at h
  | ok articles =>
    cases hs : score_company sc weights articles c with
    | none => simp [score_pipeline, hf, hs, Except.bind] at h
    | some s0 =>
      cases hr : score_pipeline sc weights fetch rest with
      | error e => simp [score_pipeline, hf, hs, hr, Except.bind, Except.map] at h
      | ok l =>
        simp only [score_pipeline, hf, hs, hr, Except.bind, Except.map,
          Except.ok.injEq] at h
        exact ⟨articles, s0, l, rfl, hs, rfl, h.symm⟩

theorem score_pipeline_mem {sc : String → ℚ} {weights : String → Option ℚ}
    {fetch : String → List String → Except String (List Article)} :
    ∀ {companies : List Company} {out : List ScoredCompany},
      score_pipeline sc weights fetch companies = Except.ok out →
      ∀ s ∈ out, ∃ c ∈ companies, ∃ articles,
        fetch c.name c.search_terms = Except.ok articles ∧
        score_company sc weights articles c = some s
  | [], out, h, s, hs => by
    unfold score_pipeline at h
    simp only [Except.ok.injEq] at h
    rw [← h] at hs
    cases hs
  | c :: rest, out, h, s, hs => by
    obtain ⟨articles, s0, l, hf, hsc, hr, rfl⟩ := score_pipeline_cons_ok h
    rcases List.mem_cons.mp hs with rfl | hmem
    · exact ⟨c, List.mem_cons_self c rest, articles, hf, hsc⟩
    · obtain ⟨c', hc', arts, hf', hsc'⟩ := score_pipeline_mem hr s hmem
      exact ⟨c', List.mem_cons_of_mem _ hc', arts, hf', hsc'⟩

theorem score_pipeline_names {sc : String → ℚ} {weights : String → Option ℚ}
    {fetch : String → List String → Except String (List Article)} :
    ∀ {companies : List Company} {out : List ScoredCompany},
      score_pipeline sc weights fetch companies = Except.ok out →
      out.map (fun s => s.name) = companies.map (fun c => c.name)
  | [], out, h => by
    unfold score_pipeline at h
    simp only [Except.ok.injEq] at h
    rw [← h]
    rfl
  | c :: rest, out, h => by
    obtain ⟨articles, s0, l, _, hsc, hr, rfl⟩ := score_pipeline_cons_ok h
    obtain ⟨esgInt, sw, _, _, rfl⟩ := score_company_eq hsc
    simp only [List.map_cons]
    rw [score_pipeline_names hr]

/-! ### Helper lemmas about the monthly buckets -/

theorem foldl_bucketStep (sc : String → ℚ) {m : String} (hm : m ∈ monthLabels) :
    ∀ (l : List Article) (init : String → List ℚ),
      (l.foldl (bucketStep sc) init) m =
        init m ++ (l.filter fun a => a.month == some m).map
          (fun a => sc (articleContent a))
  | [], init => by simp
  | a :: l, init => by
    rw [List.foldl_cons, foldl_bucketStep sc hm l]
    unfold bucketStep
    cases ha : a.month with
    | none => simp [List.filter_cons, ha]
    | some m' =>
      by_cases hmem : m' ∈ monthLabels
      · by_cases heq : m' = m
        · subst heq
          simp [hmem, Function.update_same, List.filter_cons, ha]
        · have hne : m ≠ m' := fun h => heq h.symm
          simp [hmem, Function.update_noteq hne, List.filter_cons, ha, heq]
      · have hne : m' ≠ m := fun h => hmem (h ▸ hm)
        simp [hmem, List.filter_cons, ha, hne]

theorem monthly_sentiments_eq (sc : String → ℚ) (articles : List Article)
    {m : String} (hm : m ∈ monthLabels) :
    monthly_sentiments sc articles m =
      (articles.filter fun a => a.month == some m).map
        (fun a => sc (articleContent a)) := by
  unfold monthly_sentiments
  rw [foldl_bucketStep sc hm]
  rfl

theorem demo_esg_raw : esg_raw equalWeights demoMetrics = some (4 / 5) := by
  simp [demoMetrics, requiredKeys, esg_raw, equalWeights]
  norm_num

theorem demo_esg_int : esg_score_int equalWeights demoMetrics = some 80 := by
  rw [esg_score_int, demo_esg_raw]
  have h : (4 / 5 : ℚ) * 100 = ((80 : ℤ) : ℚ) := by norm_num
  simp only [Option.map_some']
  rw [h, roundHalfEven_intCast]

theorem sentiment_score_int_zero : sentiment_score_int 0 = 50 := by
  rw [sentiment_score_int]
  have h : ((0 : ℚ) + 1) / 2 * 100 = ((50 : ℤ) : ℚ) := by norm_num
  rw [h, roundHalfEven_intCast]

theorem overall_score_int_demo : overall_score_int 80 50 (1 / 4) = 72 := by
  rw [overall_score_int]
  have h : ((80 : ℤ) : ℚ) * (1 - 1 / 4) + ((50 : ℤ) : ℚ) * (1 / 4) =
      ((72 : ℤ) : ℚ) + 1 / 2 := by norm_num
  rw [h, roundHalfEven_int_add_half]
  norm_num

theorem demo_sentiment_weight : equalWeights "sentiment_weight" = some (1 / 4) := by
  simp [equalWeights, requiredKeys]

theorem demo_score_company (sc : String → ℚ) (name : String) (terms : List String) :
    score_company sc equalWeights [] ⟨name, terms, demoMetrics⟩ =
      some (demoScored name terms) := by
  have h1 : analyze_sentiment sc [] =
      ⟨0, [0, 0, 0, 0, 0], monthLabels⟩ := rfl
  simp only [score_company, h1, demo_esg_int, demo_sentiment_weight,
    Option.some_bind, Option.map_some']
  simp only [demoScored, sentiment_score_int_zero]
  rw [overall_score_int_demo]

theorem demo_pipeline (sc : String → ℚ) (name : String) (terms : List String) :
    score_pipeline sc equalWeights demoFetchEmpty [⟨name, terms, demoMetrics⟩] =
      Except.ok [demoScored name terms] := by
  simp [score_pipeline, demoFetchEmpty, demo_score_company, Except.bind, Except.map]

theorem demo_pipeline_two (sc : String → ℚ) (nA nB : String)
    (tA tB : List String) :
    score_pipeline sc equalWeights demoFetchEmpty
        [⟨nA, tA, demoMetrics⟩, ⟨nB, tB, demoMetrics⟩] =
      Except.ok [demoScored nA tA, demoScored nB tB] := by
  simp [score_pipeline, demoFetchEmpty, demo_score_company, Except.bind, Except.map]

/-! ### Characterizations of `analyze_sentiment` on non-empty input -/

theorem analyze_sentiment_score_eq (sc : String → ℚ) {articles : List Article}
    (h : articles ≠ []) :
    (analyze_sentiment sc articles).score =
      ((articles.map fun a => sc (articleContent a)).sum) / articles.length := by
  have h1 : (analyze_sentiment sc articles).score =
      listMean (articles.map fun a => sc (articleContent a)) := by
    unfold analyze_sentiment
    rw [if_neg h]
  rw [h1]
  unfold listMean
  rw [if_neg (fun hc => h (List.map_eq_nil.mp hc)), List.length_map]

theorem analyze_sentiment_trend_eq (sc : String → ℚ) {articles : List Article}
    (h : articles ≠ []) :
    (analyze_sentiment sc articles).trend =
      monthLabels.map fun m =>
        listMean ((articles.filter fun a => a.month == some m).map
          fun a => sc (articleContent a)) := by
  have h1 : (analyze_sentiment sc articles).trend =
      monthLabels.map fun m => listMean (monthly_sentiments sc articles m) := by
    unfold analyze_sentiment
    rw [if_neg h]
  rw [h1]
  exact List.map_congr_left fun m hm => by
    rw [monthly_sentiments_eq sc articles hm]

theorem analyze_sentiment_months (sc : String → ℚ) (articles : List Article) :
    (analyze_sentiment sc articles).months = monthLabels := by
  unfold analyze_sentiment
  split <;> rfl

theorem profile_ext {p q : SentimentProfile} (h1 : p.score = q.score)
    (h2 : p.trend = q.trend) (h3 : p.months = q.months) : p = q := by
  cases p
  cases q
  simp_all

theorem articleContent_fillDefaults (a : Article) :
    articleContent (fillDefaults a) = articleContent a := by
  cases a
  simp [articleContent, fillDefaults]

/-! ### Claim theorems -/

/-- C4: the Monthly Trend Builder applied to the empty article list returns
the zero profile: overall score 0, trend exactly [0, 0, 0, 0, 0], and the
fixed 5-element month-label sequence. -/
theorem claim_C4_empty_zero_profile (sc : String → ℚ) :
    analyze_sentiment sc [] =
      { score := 0, trend := [0, 0, 0, 0, 0],
        months := ["May", "Jun", "Jul", "Aug", "Sep"] } := rfl

/-- C6: for a company with all five metric values 0.8, equal ESG weights
(0.2 each), sentiment weight 0.25 and an empty article list, the pipeline
produces esg_score = 80, sentiment_score = 50 and
overall_score = round(80 * 0.75 + 50 * 0.25) = 72. -/
theorem claim_C6_end_to_end_example :
    calculate_scores (fun _ => 0) equalWeights demoFetchEmpty
        [⟨"Apple Inc", ["Apple sustainability"], demoMetrics⟩] =
      Except.ok [demoScored "Apple Inc" ["Apple sustainability"]] ∧
    (demoScored "Apple Inc" ["Apple sustainability"]).esg_score = 80 ∧
    (demoScored "Apple Inc" ["Apple sustainability"]).sentiment_score = 50 ∧
    overall_score_int 80 50 (1 / 4) = 72 ∧
    (demoScored "Apple Inc" ["Apple sustainability"]).overall_score = 72 := by
  refine ⟨?_, rfl, rfl, overall_score_int_demo, rfl⟩
  rw [calculate_scores, demo_pipeline]
  rfl

/-- C1: the Score Composer computes
`sentimentScoreInt = round((overallScore + 1) / 2 * 100)` and
`overallScoreInt = round(esgScore * (1 - w) + sentimentScoreInt * w)` for
every scored company emitted by `calculate_scores`, and the endpoints map
to 0 and 100. -/
theorem claim_C1_score_composer :
    sentiment_score_int (-1) = 0 ∧ sentiment_score_int 1 = 100 ∧
    ∀ (sc : String → ℚ) (weights : String → Option ℚ)
      (fetch : String → List String → Except String (List Article))
      (companies : List Company) (out : List ScoredCompany),
      calculate_scores sc weights fetch companies = Except.ok out →
      ∀ s ∈ out,
        s.sentiment_score = roundHalfEven ((s.sentiment.score + 1) / 2 * 100) ∧
        ∃ w, weights "sentiment_weight" = some w ∧
          s.overall_score =
            roundHalfEven ((s.esg_score : ℚ) * (1 - w) +
              (s.sentiment_score : ℚ) * w) := by
  refine ⟨?_, ?_, ?_⟩
  · rw [sentiment_score_int,
      show ((-1 : ℚ) + 1) / 2 * 100 = ((0 : ℤ) : ℚ) from by norm_num,
      roundHalfEven_intCast]
  · rw [sentiment_score_int,
      show ((1 : ℚ) + 1) / 2 * 100 = ((100 : ℤ) : ℚ) from by norm_num,
      roundHalfEven_intCast]
  · intro sc weights fetch companies out h s hs
    rw [calculate_scores] at h
    cases hp : score_pipeline sc weights fetch companies with
    | error e => rw [hp] at h; simp [Except.map] at h
    | ok scored =>
      rw [hp] at h
      simp only [Except.map, Except.ok.injEq] at h
      rw [← h] at hs
      obtain ⟨c, _, articles, _, hsc⟩ :=
        score_pipeline_mem hp s (mem_sortDesc.mp hs)
      obtain ⟨esgInt, sw, _, hw, rfl⟩ := score_company_eq hsc
      refine ⟨rfl, sw, hw, ?_⟩
      rfl

/-- Witness for C1 at a concrete pipeline run. -/
theorem claim_C1_witness :
    (demoScored "Apple Inc" ["Apple sustainability"]).sentiment_score =
      roundHalfEven
        (((demoScored "Apple Inc" ["Apple sustainability"]).sentiment.score + 1) /
          2 * 100) ∧
    ∃ w, equalWeights "sentiment_weight" = some w ∧
      (demoScored "Apple Inc" ["Apple sustainability"]).overall_score =
        roundHalfEven
          (((demoScored "Apple Inc" ["Apple sustainability"]).esg_score : ℚ) *
              (1 - w) +
            ((demoScored "Apple Inc" ["Apple sustainability"]).sentiment_score : ℚ) *
              w) := by
  have h : calculate_scores (fun _ => 0) equalWeights demoFetchEmpty
      [⟨"Apple Inc", ["Apple sustainability"], demoMetrics⟩] =
        Except.ok [demoScored "Apple Inc" ["Apple sustainability"]] := by
    rw [calculate_scores, demo_pipeline]
    rfl
  exact claim_C1_score_composer.2.2 (fun _ => 0) equalWeights demoFetchEmpty
    [⟨"Apple Inc", ["Apple sustainability"], demoMetrics⟩]
    [demoScored "Apple Inc" ["Apple sustainability"]] h
    (demoScored "Apple Inc" ["Apple sustainability"]) (List.mem_singleton.mpr rfl)

/-- C5: `calculate_scores` sorts the scored companies descending by
overall score; among equal overall scores any relation holding in input
order (in particular, input precedence itself) is preserved, i.e. the
sort is stable; and the pre-sort scored list is aligned one-to-one, in
order, with the input company list. -/
theorem claim_C5_ranking (sc : String → ℚ) (weights : String → Option ℚ)
    (fetch : String → List String → Except String (List Article))
    (companies : List Company) (scored : List ScoredCompany)
    (h : score_pipeline sc weights fetch companies = Except.ok scored) :
    calculate_scores sc weights fetch companies =
      Except.ok (sortDesc (fun s => s.overall_score) scored) ∧
    scored.map (fun s => s.name) = companies.map (fun c => c.name) ∧
    (sortDesc (fun s => s.overall_score) scored).Pairwise
      (fun a b => b.overall_score ≤ a.overall_score) ∧
    ∀ R : ScoredCompany → ScoredCompany → Prop, scored.Pairwise R →
      (sortDesc (fun s => s.overall_score) scored).Pairwise
        (fun a b => a.overall_score = b.overall_score → R a b) := by
  refine ⟨?_, score_pipeline_names h, sortDesc_sorted _ _,
    fun R hR => sortDesc_ties hR⟩
  rw [calculate_scores, h]
  rfl

/-- Witness for C5: two tied companies keep their input order. -/
theorem claim_C5_witness :
    calculate_scores (fun _ => 0) equalWeights demoFetchEmpty
        [⟨"A", ["a"], demoMetrics⟩, ⟨"B", ["b"], demoMetrics⟩] =
      Except.ok (sortDesc (fun s => s.overall_score)
        [demoScored "A" ["a"], demoScored "B" ["b"]]) ∧
    (sortDesc (fun s => s.overall_score)
        [demoScored "A" ["a"], demoScored "B" ["b"]]).Pairwise
      (fun a b => a.overall_score = b.overall_score →
        a.name = "A" ∧ b.name = "B") := by
  have h := demo_pipeline_two (fun _ => 0) "A" "B" ["a"] ["b"]
  have c := claim_C5_ranking (fun _ => 0) equalWeights demoFetchEmpty
    [⟨"A", ["a"], demoMetrics⟩, ⟨"B", ["b"], demoMetrics⟩]
    [demoScored "A" ["a"], demoScored "B" ["b"]] h
  exact ⟨c.1, c.2.2.2 (fun a b => a.name = "A" ∧ b.name = "B")
    (by simp [demoScored])⟩

/-- C3: on a non-empty article list the overall score is the unweighted
mean of the per-article sentiment over all articles; each trend entry is
the mean over the articles whose month equals that bucket's label (0 when
the bucket is empty, via `listMean`); and an article whose month is
outside the fixed label set leaves every trend bucket unchanged while
still being counted in the overall mean. -/
theorem claim_C3_trend_builder (sc : String → ℚ) (articles : List Article)
    (h : articles ≠ []) :
    (analyze_sentiment sc articles).score =
      ((articles.map fun a => sc (articleContent a)).sum) / articles.length ∧
    (analyze_sentiment sc articles).trend =
      monthLabels.map (fun m =>
        listMean ((articles.filter fun a => a.month == some m).map
          fun a => sc (articleContent a))) ∧
    ∀ a : Article, (∀ m ∈ monthLabels, a.month ≠ some m) →
      (analyze_sentiment sc (articles ++ [a])).trend =
        (analyze_sentiment sc articles).trend ∧
      (analyze_sentiment sc (articles ++ [a])).score =
        (((articles ++ [a]).map fun x => sc (articleContent x)).sum) /
          (articles ++ [a]).length := by
  refine ⟨analyze_sentiment_score_eq sc h, analyze_sentiment_trend_eq sc h, ?_⟩
  intro a ha
  have hne : articles ++ [a] ≠ [] := by simp
  refine ⟨?_, analyze_sentiment_score_eq sc hne⟩
  rw [analyze_sentiment_trend_eq sc hne, analyze_sentiment_trend_eq sc h]
  refine List.map_congr_left fun m hm => ?_
  congr 1
  rw [List.filter_append]
  have hfa : List.filter (fun x => x.month == some m) [a] = [] := by
    simp only [List.filter_cons, List.filter_nil]
    rw [if_neg]
    simp [ha m hm]
  rw [hfa, List.append_nil]

/-- Witness for C3 at a one-article list plus an unlabeled-month article. -/
theorem claim_C3_witness :
    ([(⟨some "t", some "d", none, some "Jun", none⟩ : Article)] ≠
        ([] : List Article)) ∧
    ((analyze_sentiment (fun _ => 1 / 2)
        [⟨some "t", some "d", none, some "Jun", none⟩]).score =
      (([(⟨some "t", some "d", none, some "Jun", none⟩ : Article)].map
        fun a => (fun _ => (1 : ℚ) / 2) (articleContent a)).sum) /
        [(⟨some "t", some "d", none, some "Jun", none⟩ : Article)].length) := by
  refine ⟨by simp, ?_⟩
  exact (claim_C3_trend_builder (fun _ => 1 / 2)
    [⟨some "t", some "d", none, some "Jun", none⟩] (by simp)).1

/-- C10: `analyze_sentiment` is total on arbitrary article records: it
always returns a 5-entry trend with the fixed month labels; records with
missing `title`/`description` are scored as if those fields were the empty
string; and articles with a missing or unrecognized month contribute to no
trend bucket (removing them leaves the trend unchanged). -/
theorem claim_C10_totality (sc : String → ℚ) (articles : List Article) :
    (analyze_sentiment sc articles).trend.length = 5 ∧
    (analyze_sentiment sc articles).months = monthLabels ∧
    analyze_sentiment sc articles =
      analyze_sentiment sc (articles.map fillDefaults) ∧
    (analyze_sentiment sc articles).trend =
      (analyze_sentiment sc (articles.filter goodMonth)).trend := by
  by_cases h : articles = []
  · subst h
    exact ⟨rfl, rfl, rfl, rfl⟩
  · have hmapne : articles.map fillDefaults ≠ [] :=
      fun hc => h (List.map_eq_nil.mp hc)
    refine ⟨?_, analyze_sentiment_months sc articles, ?_, ?_⟩
    · rw [analyze_sentiment_trend_eq sc h]
      simp [monthLabels]
    · refine profile_ext ?_ ?_ ?_
      · rw [analyze_sentiment_score_eq sc h, analyze_sentiment_score_eq sc hmapne,
          List.map_map, List.length_map]
        congr 1
      · rw [analyze_sentiment_trend_eq sc h, analyze_sentiment_trend_eq sc hmapne]
        refine List.map_congr_left fun m hm => ?_
        congr 1
        have hp : (fun a : Article => a.month == some m) ∘ fillDefaults =
            fun a : Article => a.month == some m := funext fun a => rfl
        rw [List.filter_map, hp, List.map_map]
        exact List.map_congr_left fun a _ => by
          simp [articleContent_fillDefaults]
      · rw [analyze_sentiment_months, analyze_sentiment_months]
    · by_cases h2 : articles.filter goodMonth = []
      · rw [analyze_sentiment_trend_eq sc h, h2]
        have h2' : ∀ a ∈ articles, ¬ goodMonth a = true :=
          List.filter_eq_nil.mp h2
        have hz : ∀ m ∈ monthLabels,
            (articles.filter fun a => a.month == some m) = [] := by
          intro m hm
          rw [List.filter_eq_nil]
          intro a hamem hcon
          have hmon : a.month = some m := by simpa using hcon
          have : goodMonth a = true := by simp [goodMonth, hmon, hm]
          exact h2' a hamem this
        have : monthLabels.map (fun m =>
            listMean ((articles.filter fun a => a.month == some m).map
              fun a => sc (articleContent a))) =
            monthLabels.map fun _ => (0 : ℚ) := by
          refine List.map_congr_left fun m hm => ?_
          rw [hz m hm]
          rfl
        rw [this]
        rfl
      · rw [analyze_sentiment_trend_eq sc h, analyze_sentiment_trend_eq sc h2]
        refine List.map_congr_left fun m hm => ?_
        congr 1
        rw [List.filter_filter]
        congr 1
        refine List.filter_congr fun a _ => ?_
        by_cases hcase : a.month = some m
        · simp [hcase, goodMonth, hm]
        · simp [hcase]

/-- C2: for metrics over the five ESG keys with values in [0,1] and
weights in [0,1] summing to 1, the ESG blend (weighted sum times 100,
rounded half-to-even) is in [0,100]; all-1.0 metrics give 100 and all-0.0
metrics give 0. -/
theorem claim_C2_esg_blend_range (mv wv : String → ℚ)
    (hm : ∀ k ∈ requiredKeys, 0 ≤ mv k ∧ mv k ≤ 1)
    (hw : ∀ k ∈ requiredKeys, 0 ≤ wv k)
    (hsum : (requiredKeys.map wv).sum = 1) :
    (∃ n, esg_score_int (esgWeights wv) (requiredKeys.map fun k => (k, mv k)) =
        some n ∧ 0 ≤ n ∧ n ≤ 100) ∧
    esg_score_int (esgWeights wv) (requiredKeys.map fun k => (k, 1)) =
      some 100 ∧
    esg_score_int (esgWeights wv) (requiredKeys.map fun k => (k, 0)) =
      some 0 := by
  have hkeys : ∀ k ∈ requiredKeys, esgWeights wv k = some (wv k) :=
    fun k hk => by simp [esgWeights, hk]
  have hw1 := hw "emissions_reduction" (by simp [requiredKeys])
  have hw2 := hw "renewable_energy" (by simp [requiredKeys])
  have hw3 := hw "water_conservation" (by simp [requiredKeys])
  have hw4 := hw "waste_management" (by simp [requiredKeys])
  have hw5 := hw "supply_chain" (by simp [requiredKeys])
  have hm1 := hm "emissions_reduction" (by simp [requiredKeys])
  have hm2 := hm "renewable_energy" (by simp [requiredKeys])
  have hm3 := hm "water_conservation" (by simp [requiredKeys])
  have hm4 := hm "waste_management" (by simp [requiredKeys])
  have hm5 := hm "supply_chain" (by simp [requiredKeys])
  simp only [requiredKeys, List.map_cons, List.map_nil, List.sum_cons,
    List.sum_nil] at hsum
  refine ⟨?_, ?_, ?_⟩
  · rw [esg_score_int, esg_raw_keys (esgWeights wv) wv mv requiredKeys hkeys]
    have hS0 : (0 : ℚ) ≤ ((requiredKeys.map fun k => mv k * wv k).sum) := by
      simp only [requiredKeys, List.map_cons, List.map_nil, List.sum_cons,
        List.sum_nil]
      have := mul_nonneg hm1.1 hw1
      have := mul_nonneg hm2.1 hw2
      have := mul_nonneg hm3.1 hw3
      have := mul_nonneg hm4.1 hw4
      have := mul_nonneg hm5.1 hw5
      linarith
    have hS1 : ((requiredKeys.map fun k => mv k * wv k).sum) ≤ 1 := by
      simp only [requiredKeys, List.map_cons, List.map_nil, List.sum_cons,
        List.sum_nil]
      have := mul_le_of_le_one_left hw1 hm1.2
      have := mul_le_of_le_one_left hw2 hm2.2
      have := mul_le_of_le_one_left hw3 hm3.2
      have := mul_le_of_le_one_left hw4 hm4.2
      have := mul_le_of_le_one_left hw5 hm5.2
      linarith
    refine ⟨_, rfl, roundHalfEven_nonneg (by positivity), roundHalfEven_le ?_⟩
    push_cast
    nlinarith
  · rw [esg_score_int, esg_raw_keys (esgWeights wv) wv (fun _ => 1) requiredKeys hkeys]
    have hS : ((requiredKeys.map fun k => (1 : ℚ) * wv k).sum) = 1 := by
      simp only [requiredKeys, List.map_cons, List.map_nil, List.sum_cons,
        List.sum_nil, one_mul]
      linarith
    rw [hS, Option.map_some',
      show (1 : ℚ) * 100 = ((100 : ℤ) : ℚ) from by norm_num,
      roundHalfEven_intCast]
  · rw [esg_score_int, esg_raw_keys (esgWeights wv) wv (fun _ => 0) requiredKeys hkeys]
    have hS : ((requiredKeys.map fun k => (0 : ℚ) * wv k).sum) = 0 := by
      simp [requiredKeys]
    rw [hS, Option.map_some',
      show (0 : ℚ) * 100 = ((0 : ℤ) : ℚ) from by norm_num,
      roundHalfEven_intCast]

/-- Witness for C2 with metrics all 0.8 and weights all 0.2. -/
theorem claim_C2_witness :
    (∃ n, esg_score_int (esgWeights fun _ => 1 / 5)
        (requiredKeys.map fun k => (k, (fun _ : String => (4 : ℚ) / 5) k)) =
        some n ∧ 0 ≤ n ∧ n ≤ 100) ∧
    esg_score_int (esgWeights fun _ => 1 / 5)
        (requiredKeys.map fun k => (k, 1)) = some 100 ∧
    esg_score_int (esgWeights fun _ => 1 / 5)
        (requiredKeys.map fun k => (k, 0)) = some 0 :=
  claim_C2_esg_blend_range (fun _ => 4 / 5) (fun _ => 1 / 5)
    (fun k _ => by norm_num) (fun k _ => by norm_num)
    (by simp [requiredKeys]; norm_num)

/-- C7 counterexample: with the repository's full weights dict and a
metrics dict missing the required key `supply_chain`, the ESG blend does
NOT fail — it silently returns 64 (the sum simply misses that term) —
refuting the claim that a key absent from the metrics mapping is an
error. -/
theorem claim_C7_counterexample :
    (∀ p ∈ metricsMissingSupplyChain, p.1 ≠ "supply_chain") ∧
    "supply_chain" ∈ requiredKeys ∧
    esg_score_int repoWeights metricsMissingSupplyChain = some 64 := by
  refine ⟨by simp [metricsMissingSupplyChain], by simp [requiredKeys], ?_⟩
  have hr : esg_raw repoWeights metricsMissingSupplyChain = some (16 / 25) := by
    simp [metricsMissingSupplyChain, esg_raw, repoWeights]
    norm_num
  rw [esg_score_int, hr, Option.map_some',
    show (16 / 25 : ℚ) * 100 = ((64 : ℤ) : ℚ) from by norm_num,
    roundHalfEven_intCast]

/-- C7 amended: the ESG blend raises `KeyError` exactly when some key
present in the company's metrics mapping is absent from the weights
mapping; a required key absent from the metrics mapping is silently
skipped, never an error. -/
theorem claim_C7_amended (weights : String → Option ℚ)
    (metrics : List (String × ℚ)) :
    esg_score_int weights metrics = none ↔
      ∃ p ∈ metrics, weights p.1 = none := by
  rw [esg_score_int, Option.map_eq_none']
  exact esg_raw_none_iff weights metrics

theorem flatMap_eq_nil_of {f : α → List β} :
    ∀ {l : List α}, (∀ a ∈ l, f a = []) → l.flatMap f = []
  | [], _ => rfl
  | a :: l, h => by
    rw [List.flatMap_cons, h a (List.mem_cons_self a l),
      flatMap_eq_nil_of fun b hb => h b (List.mem_cons_of_mem _ hb)]
    rfl

/-- C8: once the API keys are present, `get_company_news` always returns
normally; a failing call contributes zero articles for its
(term, window, source) tuple; and if every call to both sources fails the
aggregator returns the empty list rather than raising. -/
theorem claim_C8_failure_containment (nk gk : Option String)
    (monthName : Nat → String)
    (napi : String → Nat → Except String NewsApiResponse)
    (gn : String → Nat → Except String GNewsResponse)
    (cname : String) (terms : List String) (months : Nat)
    (h1 : truthy nk) (h2 : truthy gk) :
    (∃ l, get_company_news nk gk monthName napi gn cname terms months =
      Except.ok l) ∧
    (∀ m e, processNewsApi m (Except.error e) = [] ∧
      processGNews m (Except.error e) = []) ∧
    ((∀ t i, ∃ e, napi t i = Except.error e) →
     (∀ t i, ∃ e, gn t i = Except.error e) →
      get_company_news nk gk monthName napi gn cname terms months =
        Except.ok []) := by
  refine ⟨?_, fun m e => ⟨rfl, rfl⟩, fun hn hg => ?_⟩
  · refine ⟨terms.flatMap fun term => (List.range months).flatMap fun i =>
      processNewsApi (monthName i) (napi term i) ++
        processGNews (monthName i) (gn term i), ?_⟩
    rw [get_company_news, if_pos ⟨h1, h2⟩]
  · rw [get_company_news, if_pos ⟨h1, h2⟩]
    congr 1
    refine flatMap_eq_nil_of fun t _ => ?_
    refine flatMap_eq_nil_of fun i _ => ?_
    obtain ⟨e1, he1⟩ := hn t i
    obtain ⟨e2, he2⟩ := hg t i
    rw [he1, he2]
    rfl

/-- Witness for C8 at a concrete all-sources-down run. -/
theorem claim_C8_witness :
    (∃ l, get_company_news (some "key1") (some "key2") (fun _ => "Sep")
        (fun _ _ => Except.error "network down")
        (fun _ _ => Except.error "network down")
        "Apple Inc" ["Apple sustainability", "Apple environmental"] 5 =
      Except.ok l) ∧
    get_company_news (some "key1") (some "key2") (fun _ => "Sep")
        (fun _ _ => Except.error "network down")
        (fun _ _ => Except.error "network down")
        "Apple Inc" ["Apple sustainability", "Apple environmental"] 5 =
      Except.ok [] := by
  have h := claim_C8_failure_containment (some "key1") (some "key2")
    (fun _ => "Sep") (fun _ _ => Except.error "network down")
    (fun _ _ => Except.error "network down") "Apple Inc"
    ["Apple sustainability", "Apple environmental"] 5
    (by simp [truthy]) (by simp [truthy])
  exact ⟨h.1, h.2.2 (fun t i => ⟨"network down", rfl⟩)
    (fun t i => ⟨"network down", rfl⟩)⟩

theorem bare_news_eval :
    get_company_news (some "k") (some "g") (fun _ => "Sep")
        (fun _ _ => Except.ok newsapiRespBare) (fun _ _ => Except.error "down")
        "X" ["t"] 1 =
      Except.ok [⟨none, none, none, some "Sep", some "NewsAPI"⟩] := by
  rw [get_company_news, if_pos ⟨by simp [truthy], by simp [truthy]⟩]
  rfl

/-- C9 counterexample: a NewsAPI article lacking `title` and `description`
is returned by `get_company_news` still lacking them — only `month` and
`source` are added — so not every returned record is normalized into the
common Article fields. -/
theorem claim_C9_counterexample :
    get_company_news (some "k") (some "g") (fun _ => "Sep")
        (fun _ _ => Except.ok newsapiRespBare) (fun _ _ => Except.error "down")
        "X" ["t"] 1 =
      Except.ok [⟨none, none, none, some "Sep", some "NewsAPI"⟩] ∧
    (Article.mk none none none (some "Sep") (some "NewsAPI")).title = none ∧
    (Article.mk none none none (some "Sep") (some "NewsAPI")).description =
      none :=
  ⟨bare_news_eval, rfl, rfl⟩

/-- C9 amended: every article returned by `get_company_news` carries a
`month` label and a `source` name ("NewsAPI" or "GNews"), and GNews
articles are additionally fully standardized (title, description, url all
present); NewsAPI articles keep their raw provider shape, with only
`month` and `source` added. -/
theorem claim_C9_amended (nk gk : Option String) (monthName : Nat → String)
    (napi : String → Nat → Except String NewsApiResponse)
    (gn : String → Nat → Except String GNewsResponse)
    (cname : String) (terms : List String) (months : Nat)
    (l : List Article)
    (h : get_company_news nk gk monthName napi gn cname terms months =
      Except.ok l) :
    ∀ a ∈ l, (a.source = some "NewsAPI" ∨ a.source = some "GNews") ∧
      a.month.isSome ∧
      (a.source = some "GNews" →
        a.title.isSome ∧ a.description.isSome ∧ a.url.isSome) := by
  intro a ha
  rw [get_company_news] at h
  split at h
  · injection h with h'
    subst h'
    obtain ⟨t, ht, hi⟩ := List.mem_flatMap.mp ha
    obtain ⟨i, hi', hmem⟩ := List.mem_flatMap.mp hi
    rcases List.mem_append.mp hmem with hn | hg
    · cases hr : napi t i with
      | error e => rw [hr] at hn; simp only [processNewsApi] at hn; cases hn
      | ok data =>
        rw [hr] at hn
        simp only [processNewsApi] at hn
        by_cases hst : data.status = some "ok"
        · rw [if_pos hst] at hn
          obtain ⟨r, hrmem, rfl⟩ := List.mem_map.mp hn
          refine ⟨Or.inl rfl, rfl, fun hgg => ?_⟩
          simp at hgg
        · rw [if_neg hst] at hn
          cases hn
    · cases hr : gn t i with
      | error e => rw [hr] at hg; simp only [processGNews] at hg; cases hg
      | ok data =>
        rw [hr] at hg
        simp only [processGNews] at hg
        obtain ⟨r, hrmem, rfl⟩ := List.mem_map.mp hg
        exact ⟨Or.inr rfl, rfl, fun _ => ⟨rfl, rfl, rfl⟩⟩
  · exact Except.noConfusion h

/-- Witness for C9 at the bare-article input. -/
theorem claim_C9_witness :
    ((Article.mk none none none (some "Sep") (some "NewsAPI")).source =
        some "NewsAPI" ∨
      (Article.mk none none none (some "Sep") (some "NewsAPI")).source =
        some "GNews") ∧
    (Article.mk none none none (some "Sep") (some "NewsAPI")).month.isSome ∧
    ((Article.mk none none none (some "Sep") (some "NewsAPI")).source =
        some "GNews" →
      (Article.mk none none none (some "Sep") (some "NewsAPI")).title.isSome ∧
      (Article.mk none none none (some "Sep")
        (some "NewsAPI")).description.isSome ∧
      (Article.mk none none none (some "Sep") (some "NewsAPI")).url.isSome) :=
  claim_C9_amended (some "k") (some "g") (fun _ => "Sep")
    (fun _ _ => Except.ok newsapiRespBare) (fun _ _ => Except.error "down")
    "X" ["t"] 1 [⟨none, none, none, some "Sep", some "NewsAPI"⟩]
    bare_news_eval
    (Article.mk none none none (some "Sep") (some "NewsAPI"))
    (List.mem_singleton.mpr rfl)

end CCAIndex
